import Mathlib

/-!
Verification of the long-form-memory pipeline (memory_model.py, memory_storage.py,
memory_extractor.py, memory_retriever.py, long_form_memory.py).

Modelling conventions:
- Python floats are idealized as exact arithmetic: rationals where the source only
  adds, compares and divides (confidences, Jaccard scores), and reals where the
  source calls np.exp / np.log (relevance scoring).
- The SQLite table is a list of rows in rowid order; INSERT OR REPLACE deletes the
  conflicting row and appends the new one, as SQLite does for an auto-rowid table.
- datetime.now().isoformat() is threaded through as an explicit timestamp argument.
- json.dumps followed by json.loads on a metadata dictionary is the identity on
  string-keyed dictionaries, so the serialized metadata column stores the
  dictionary itself; the Python truthiness guards around it are kept.
- re.findall is passed in as an explicit match oracle (one entry per match, listing
  the capture groups); the pattern strings are carried verbatim so that theorems
  quantify over every possible matcher behaviour, covering the real regex engine.
-/

/-- Memory dataclass from memory_model.py. Confidence is a rational idealizing the
Python float; the embedding is the optional vector field. -/
structure Memory where
  memory_id : String
  type : String
  key : String
  value : String
  source_turn : Nat
  confidence : ℚ
  created_at : String
  last_accessed_turn : Option Nat := none
  access_count : Nat := 0
  embedding : Option (List ℚ) := none
  metadata : Option (List (String × String)) := none
deriving DecidableEq, Repr

/-- Memory.update_access from memory_model.py. -/
def Memory.update_access (m : Memory) (turn : Nat) : Memory :=
  { m with last_accessed_turn := some turn, access_count := m.access_count + 1 }

/-- Memory.to_dict: dataclasses.asdict keeps every field, including the embedding;
it is modelled as the identity on the record. -/
def Memory.to_dict (m : Memory) : Memory := m

/-- Memory.to_json serializes to_dict after forcing the embedding to None
("Too large for JSON"); we model the resulting record. -/
def Memory.to_json_data (m : Memory) : Memory := { m with embedding := none }

/-- One row of the SQLite memories table (memory_storage.py, _setup_database). -/
structure Row where
  memory_id : String
  type : String
  key : String
  value : String
  source_turn : Nat
  confidence : ℚ
  created_at : String
  last_accessed_turn : Option Nat
  access_count : Nat
  metadata : Option (List (String × String))
  active : Bool
deriving DecidableEq, Repr

/-- MemoryStorage state: the durable table in rowid order plus the volatile
in-memory embedding side-table (self.embeddings). -/
structure StorageState where
  rows : List Row
  embeddings : List (String × List ℚ)
deriving DecidableEq, Repr

/-- The freshly created database of MemoryStorage._setup_database. -/
def StorageState.empty : StorageState := ⟨[], []⟩

/-- Python truthiness applied to an optional metadata dictionary:
`json.dumps(memory.metadata) if memory.metadata else None` stores NULL both for
None and for the (falsy) empty dictionary. -/
def pyTruthyMeta : Option (List (String × String)) → Option (List (String × String))
  | some d => if d = [] then none else some d
  | none => none

/-- The volatile side-table lookup self.embeddings.get(id). -/
def lookupEmbedding (st : StorageState) (memory_id : String) : Option (List ℚ) :=
  (st.embeddings.find? (fun p => p.1 = memory_id)).map (·.2)

/-- The row that save writes for a memory: every scalar field, the metadata
column after the Python truthiness guard, and active forced to 1. -/
def Memory.toRow (m : Memory) : Row :=
  { memory_id := m.memory_id, type := m.type, key := m.key, value := m.value
    source_turn := m.source_turn, confidence := m.confidence
    created_at := m.created_at, last_accessed_turn := m.last_accessed_turn
    access_count := m.access_count, metadata := pyTruthyMeta m.metadata
    active := true }

/-- MemoryStorage.save: INSERT OR REPLACE by memory_id with active forced to 1,
then the embedding (if any) stored in the volatile side-table. The Python
function returns False only on a storage exception, which the model does not
produce, so the boolean result is always true. -/
def StorageState.save (st : StorageState) (m : Memory) : StorageState × Bool :=
  let rows := st.rows.filter (fun r => r.memory_id ≠ m.memory_id) ++ [m.toRow]
  let embs :=
    match m.embedding with
    | some e => st.embeddings.filter (fun p => p.1 ≠ m.memory_id) ++ [(m.memory_id, e)]
    | none => st.embeddings
  (⟨rows, embs⟩, true)

/-- MemoryStorage.save_batch: save each memory in order, counting successes. -/
def StorageState.save_batch (st : StorageState) (ms : List Memory) : StorageState × Nat :=
  ms.foldl
    (fun acc m =>
      let (st2, ok) := acc.1.save m
      (st2, if ok then acc.2 + 1 else acc.2))
    (st, 0)

/-- MemoryStorage.get: SELECT ... WHERE memory_id = ? AND active = 1, with the
embedding reattached from the volatile side-table. Metadata was stored as
serialized text; json.loads if the column is truthy, else None. -/
def StorageState.get (st : StorageState) (memory_id : String) : Option Memory :=
  match st.rows.find? (fun r => r.memory_id = memory_id && r.active) with
  | none => none
  | some r =>
      some { memory_id := r.memory_id, type := r.type, key := r.key, value := r.value
             source_turn := r.source_turn, confidence := r.confidence
             created_at := r.created_at, last_accessed_turn := r.last_accessed_turn
             access_count := r.access_count, metadata := r.metadata
             embedding := lookupEmbedding st r.memory_id }

/-- MemoryStorage.get_all: list the ids (optionally only active rows), then fetch
each id through get, dropping the ones get rejects. -/
def StorageState.get_all (st : StorageState) (active_only : Bool) : List Memory :=
  let ids := (if active_only then st.rows.filter (·.active) else st.rows).map (·.memory_id)
  ids.filterMap st.get

/-- MemoryStorage.mark_accessed: UPDATE memories SET last_accessed_turn, access_count
WHERE memory_id = ?. The UPDATE has no active filter and touching zero rows is not
an error, so the call returns true regardless of whether the id exists. -/
def StorageState.mark_accessed (st : StorageState) (memory_id : String) (turn_num : Nat) :
    StorageState × Bool :=
  ({ st with
      rows := st.rows.map (fun r =>
        if r.memory_id = memory_id then
          { r with last_accessed_turn := some turn_num, access_count := r.access_count + 1 }
        else r) },
    true)

/-- MemoryStorage.deactivate: UPDATE memories SET active = 0 WHERE memory_id = ?;
soft delete, returns true even when no row matches. -/
def StorageState.deactivate (st : StorageState) (memory_id : String) : StorageState × Bool :=
  ({ st with
      rows := st.rows.map (fun r =>
        if r.memory_id = memory_id then { r with active := false } else r) },
    true)

/-- MemoryStorage.find_by_type: ids of active rows of the type, fetched via get. -/
def StorageState.find_by_type (st : StorageState) (mem_type : String) : List Memory :=
  let ids := (st.rows.filter (fun r => r.type = mem_type && r.active)).map (·.memory_id)
  ids.filterMap st.get

/-- A sample memory used by concrete checks below. -/
def memSample : Memory :=
  { memory_id := "a"
    type := "fact"
    key := "k"
    value := "v"
    source_turn := 1
    confidence := 4/5
    created_at := "t" }

example : (StorageState.empty.save memSample).2 = true := rfl

example : ((StorageState.empty.save memSample).1.get "a").isSome = true := by decide

/-! ## Extraction Engine (memory_extractor.py) -/

/-- A re.findall oracle: for a pattern string and a subject string it returns one
entry per match, listing the contents of the capture groups of that match
(a single-group pattern yields singleton lists, the two-group commitment pattern
yields two-element lists). Theorems quantify over every such oracle, so they in
particular cover the behaviour of the Python regex engine on the fixed patterns. -/
def Findall : Type := String → String → List (List String)

/-- Python str.lower() (ASCII model), written by structural recursion over the
character list so that concrete runs reduce inside the kernel. -/
def pyLower (s : String) : String :=
  String.mk (s.toList.map Char.toLower)

/-- Python str.strip(): drop leading and trailing whitespace. -/
def pyStrip (s : String) : String :=
  String.mk (((s.toList.dropWhile Char.isWhitespace).reverse.dropWhile
    Char.isWhitespace).reverse)

/-- One step of Python str.split() with no argument: fold characters into
whitespace-separated words, dropping empty runs. -/
def pyWordsStep (c : Char) (acc : List Char × List (List Char)) :
    List Char × List (List Char) :=
  if c.isWhitespace then ([], if acc.1 = [] then acc.2 else acc.1 :: acc.2)
  else (c :: acc.1, acc.2)

/-- Python str.split() with no argument: split on whitespace runs, no empty parts. -/
def pyWords (s : String) : List String :=
  let folded := s.toList.foldr pyWordsStep ([], [])
  ((if folded.1 = [] then folded.2 else folded.1 :: folded.2)).map String.mk

/-- Whether the pattern is a prefix of the character list. -/
def startsWithChars : List Char → List Char → Bool
  | [], _ => true
  | _ :: _, [] => false
  | p :: ps, c :: cs => p = c && startsWithChars ps cs

/-- Whether the pattern occurs as a contiguous sublist. -/
def hasSubChars : List Char → List Char → Bool
  | l, pat =>
    startsWithChars pat l ||
      match l with
      | [] => false
      | _ :: cs => hasSubChars cs pat

/-- Python substring test `needle in haystack`. -/
def strContains (haystack needle : String) : Bool :=
  hasSubChars haystack.toList needle.toList

/-- The boring_phrases stoplist of MemoryExtractor._extract_with_patterns. -/
def boring_phrases : List String :=
  ["how are you", "how\x27s the weather", "what\x27s the latest",
   "tell me a joke", "what day is it", "what can you help",
   "that\x27s interesting", "thanks", "i see", "okay", "sure",
   "can you explain", "here to help"]

/-- The pref_patterns regex source strings (carried verbatim as opaque keys for
the findall oracle). -/
def pref_patterns : List String :=
  ["(?:my |i )prefer (?:to )?(.+?)(?:\\.|$|,)",
   "(?:always|never) (.+?)(?:\\.|$|,)",
   "(?:language is|speak|communicate in) ([a-z]+)"]

/-- The fact_patterns regex source strings. -/
def fact_patterns : List String :=
  ["(?:my name is|i am|i\x27m) ([a-z ]\x7b3,\x7d)",
   "(?:i live in|i\x27m from|from) ([a-z ]\x7b3,\x7d)",
   "(?:i work at|work for) ([a-z ]\x7b3,\x7d)",
   "allergic to ([a-z]+)",
   "(?:i\x27m|i am) (?:a |an )?([a-z]+ (?:engineer|developer|designer|manager))"]

/-- The commitment_patterns regex source strings. -/
def commitment_patterns : List String :=
  ["(?:meeting|call|appointment).+?(?:at|@) ([0-9]+\\s*(?:am|pm|AM|PM))",
   "(?:every|each) ([a-z]+day).+?([0-9]+\\s*(?:am|pm|AM|PM))",
   "birthday.+?on ([a-z]+ [0-9]+)"]

/-- Python turns a match with a single capture group into that string and a match
with several groups into a tuple; the commitment loop then joins a tuple with
spaces (`val = match if isinstance(match, str) else chr(32).join(match)`). -/
def joinGroups : List String → String
  | [g] => g
  | gs => String.intercalate " " gs

/-- Stand-in for the truncated md5 digest of MemoryExtractor._make_memory_id; the
exact digest is irrelevant to every claim, only that it is a deterministic
function of the same string. -/
def digest8 (s : String) : String :=
  toString (s.toList.foldl (fun a c => (a * 31 + c.toNat) % 100000007) 7)

/-- MemoryExtractor._make_memory_id: id derived from key, turn and the current
timestamp (threaded in as `now`). -/
def make_memory_id (key : String) (turn : Nat) (now : String) : String :=
  "mem_" ++ digest8 (key ++ "_" ++ toString turn ++ "_" ++ now)

/-- Python `match[:20].replace(chr(32), chr(95))`: the first 20 characters with
spaces replaced by underscores (replace on a single character is a map). -/
def keySlug (m : String) : String :=
  String.mk ((m.toList.take 20).map (fun c => if c = ' ' then '_' else c))

/-- The preference memory built for one pattern match in _extract_with_patterns. -/
def mkPrefMemory (m : String) (turn_num : Nat) (now : String) : Memory :=
  { memory_id := make_memory_id ("pref_" ++ m) turn_num now
    type := "preference"
    key := "preference_" ++ keySlug m
    value := pyStrip m
    source_turn := turn_num
    confidence := 85/100
    created_at := now }

/-- The fact memory built for one pattern match in _extract_with_patterns. -/
def mkFactMemory (m : String) (turn_num : Nat) (now : String) : Memory :=
  { memory_id := make_memory_id ("fact_" ++ m) turn_num now
    type := "fact"
    key := "user_" ++ keySlug m
    value := pyStrip m
    source_turn := turn_num
    confidence := 8/10
    created_at := now }

/-- The commitment memory built for one pattern match; its key records the number
of memories accumulated so far. -/
def mkCommitmentMemory (val : String) (count : Nat) (turn_num : Nat) (now : String) : Memory :=
  { memory_id := make_memory_id ("commitment_" ++ val) turn_num now
    type := "commitment"
    key := "commitment_" ++ toString count
    value := pyStrip val
    source_turn := turn_num
    confidence := 75/100
    created_at := now }

/-- MemoryExtractor._extract_with_patterns: reject short or boring messages, then
scan the lowercased user text with the three pattern families, appending one
memory per surviving match. -/
def extract_with_patterns (findall : Findall) (user_msg : String) (_asst_msg : String)
    (turn_num : Nat) (now : String) : List Memory :=
  let msg_lower := pyLower user_msg
  if (pyWords user_msg).length < 5 then []
  else if boring_phrases.any (fun p => strContains msg_lower p) then []
  else
    let text := msg_lower
    let afterPref :=
      pref_patterns.foldl (fun acc pat =>
        (findall pat text).foldl (fun acc gs =>
          let m := joinGroups gs
          if 3 < (pyStrip m).length then acc ++ [mkPrefMemory m turn_num now] else acc) acc) []
    let afterFact :=
      fact_patterns.foldl (fun acc pat =>
        (findall pat text).foldl (fun acc gs =>
          let m := joinGroups gs
          if 2 < (pyStrip m).length then acc ++ [mkFactMemory m turn_num now] else acc) acc)
        afterPref
    commitment_patterns.foldl (fun acc pat =>
      (findall pat text).foldl (fun acc gs =>
        let val := joinGroups gs
        if 2 < (pyStrip val).length then acc ++ [mkCommitmentMemory val acc.length turn_num now]
        else acc) acc) afterFact

/-- One parsed item of the JSON array an external model is asked to return. -/
structure ExtractItem where
  type : String
  key : String
  value : String
  confidence : Option ℚ
  rationale : Option String
deriving DecidableEq, Repr

/-- Embeds re.search of a full JSON-array pattern with DOTALL: the substring from
the first opening bracket to the last closing bracket after it, if any. -/
def json_array_search (s : String) : Option String :=
  let cs := s.toList
  match cs.indexOf? '[' with
  | none => none
  | some i =>
      match cs.reverse.indexOf? ']' with
      | none => none
      | some jr =>
          let j := cs.length - 1 - jr
          if i ≤ j then some (String.mk ((cs.drop i).take (j + 1 - i))) else none

/-- json.loads on the candidate array text. The placeholder external model of
_call_llm only ever produces the literal two-character empty array, which decodes
to the empty list; every other decode is treated as the JSONDecodeError branch of
the source, which also yields no items. -/
def json_loads_items (s : String) : Option (List ExtractItem) :=
  if s = "[]" then some [] else none

/-- MemoryExtractor._parse_llm_response: regex-search the array, json.loads it,
and fall back to an empty list on no match or decode failure. -/
def parse_llm_response (response : String) : List ExtractItem :=
  match json_array_search response with
  | some t => (json_loads_items t).getD []
  | none => []

/-- MemoryExtractor._call_llm: raises when no client is configured; otherwise the
TODO placeholder returns the literal empty JSON array. -/
def call_llm (llm_client : Option Unit) (_prompt : String) : Except String String :=
  match llm_client with
  | none => Except.error "No LLM client configured"
  | some _ => Except.ok "[]"

/-- MemoryExtractor._build_extraction_prompt with the two messages substituted.
The placeholder model ignores its input, so the instruction text around the
messages is abridged to a fixed header. -/
def build_extraction_prompt (user_message : String) (assistant_message : String) : String :=
  "You are a memory extraction system. Extract ONLY important information worth remembering.\n"
    ++ "User: " ++ user_message ++ "\nAssistant: " ++ assistant_message

/-- The memory built from one parsed external-model item in _extract_with_llm. -/
def mkLlmMemory (item : ExtractItem) (turn_num : Nat) (now : String) : Memory :=
  { memory_id := make_memory_id item.key turn_num now
    type := item.type
    key := item.key
    value := item.value
    source_turn := turn_num
    confidence := item.confidence.getD (8/10)
    created_at := now
    metadata := some [("rationale", item.rationale.getD "")] }

/-- MemoryExtractor._extract_with_llm: prompt the external model, parse its JSON,
convert each item; any model error is caught and the call falls back to the
pattern strategy. -/
def extract_with_llm (findall : Findall) (llm_client : Option Unit)
    (user_msg : String) (asst_msg : String) (turn_num : Nat) (now : String) : List Memory :=
  let prompt := build_extraction_prompt user_msg asst_msg
  match call_llm llm_client prompt with
  | Except.ok response =>
      (parse_llm_response response).map (fun item => mkLlmMemory item turn_num now)
  | Except.error _ => extract_with_patterns findall user_msg asst_msg turn_num now

/-- MemoryExtractor.extract_memories: the external-model strategy when requested
and a client is configured, the pattern strategy otherwise. -/
def extract_memories (findall : Findall) (llm_client : Option Unit)
    (user_msg : String) (asst_msg : String) (turn_num : Nat)
    (use_llm : Bool) (now : String) : List Memory :=
  if use_llm && llm_client.isSome then
    extract_with_llm findall llm_client user_msg asst_msg turn_num now
  else
    extract_with_patterns findall user_msg asst_msg turn_num now

/-! ## Retrieval Engine (memory_retriever.py) -/

/-- The fields of MemoryRetriever other than the storage: the optional embedding
collaborator (encode maps text to a vector) and max_results. -/
structure RetrieverConfig where
  embedding_model : Option (String → List ℚ)
  max_results : Nat

/-- The stopwords set of MemoryRetriever._tokenize. -/
def stopwords : List String :=
  ["the", "a", "an", "and", "or", "but", "in", "on", "at",
   "to", "for", "of", "with", "by", "from", "is", "are", "was", "were"]

/-- A word character for the pattern [^\w\s]: ASCII letters, digits and the
underscore (the model restricts itself to ASCII text). -/
def isWordChar (c : Char) : Bool :=
  c.isAlphanum || c = '_'

/-- MemoryRetriever._tokenize: replace every character that is neither a word
character nor whitespace by a space, split on whitespace, and drop stopwords. -/
def tokenize (text : String) : List String :=
  let cleaned := String.mk (text.toList.map (fun c =>
    if isWordChar c || c.isWhitespace then c else ' '))
  (pyWords cleaned).filter (fun w => ¬ stopwords.contains (pyLower w))

/-- MemoryRetriever._keyword_match: Jaccard similarity of the token sets of the
lowercased query and of key plus value; zero when either set is empty. -/
def keyword_match (query : String) (mem : Memory) : ℚ :=
  let query_words := (tokenize (pyLower query)).toFinset
  let mem_words := (tokenize (pyLower (mem.key ++ " " ++ mem.value))).toFinset
  if query_words = ∅ ∨ mem_words = ∅ then 0
  else
    let overlap := query_words ∩ mem_words
    let union := query_words ∪ mem_words
    if union = ∅ then 0 else (overlap.card : ℚ) / (union.card : ℚ)

/-- MemoryRetriever._semantic_match: cosine similarity of the encoded query and
the stored embedding, rescaled from the interval [-1,1] to [0,1]; zero when the
factor is inapplicable, a vector norm is zero, or the dot product is ill-shaped
(numpy raises, the source catches and returns 0). -/
noncomputable def semantic_match (cfg : RetrieverConfig) (query : String) (mem : Memory) : ℝ :=
  match mem.embedding, cfg.embedding_model with
  | some emb, some enc =>
      let qv : List ℝ := (enc query).map (fun x => (x : ℝ))
      let mv : List ℝ := emb.map (fun x => (x : ℝ))
      if qv.length ≠ mv.length then 0
      else
        let dot := (List.zipWith (· * ·) qv mv).sum
        let q_norm := Real.sqrt ((qv.map (fun x => x * x)).sum)
        let m_norm := Real.sqrt ((mv.map (fun x => x * x)).sum)
        if q_norm = 0 ∨ m_norm = 0 then 0
        else (dot / (q_norm * m_norm) + 1) / 2
  | _, _ => 0

/-- MemoryRetriever._recency_score: exponential decay with decay rate
0.693 / 100 (the source approximates ln 2 by 0.693) applied to
current_turn - source_turn, clamped to [0,1]. -/
noncomputable def recency_score (mem : Memory) (current_turn : Nat) : ℝ :=
  let turns_ago : ℤ := (current_turn : ℤ) - (mem.source_turn : ℤ)
  let decay : ℝ := 0.693 / 100
  max 0 (min 1 (Real.exp (-decay * (turns_ago : ℝ))))

/-- MemoryRetriever._frequency_score: 0.1 baseline for never-accessed memories,
else log(1 + access_count) / log(1 + 20) clamped to 1. -/
noncomputable def frequency_score (mem : Memory) : ℝ :=
  if mem.access_count = 0 then 0.1
  else min 1 (Real.log (1 + (mem.access_count : ℝ)) / Real.log 21)

/-- The weighted combination at the end of MemoryRetriever._score_relevance:
normalize the weights by their sum and form the weighted sum of the scores. -/
noncomputable def weighted_average (scores weights : List ℝ) : ℝ :=
  let total_weight := weights.sum
  let norm_weights := weights.map (fun w => w / total_weight)
  (List.zipWith (fun s w => s * w) scores norm_weights).sum

/-- MemoryRetriever._score_relevance: the factor scores and weights in source
order, the semantic factor only when the memory has an embedding and an
embedding collaborator is configured, combined by the normalized weighted sum. -/
noncomputable def score_relevance (cfg : RetrieverConfig) (mem : Memory)
    (query : String) (turn : Nat) : ℝ :=
  let semActive := mem.embedding.isSome && cfg.embedding_model.isSome
  let scores : List ℝ :=
    [(keyword_match query mem : ℝ)]
      ++ (if semActive then [semantic_match cfg query mem] else [])
      ++ [recency_score mem turn, frequency_score mem, (mem.confidence : ℝ)]
  let weights : List ℝ :=
    [0.3] ++ (if semActive then [0.3] else []) ++ [0.15, 0.1, 0.15]
  weighted_average scores weights

/-- One step of the stable descending sort performed by
`scored.sort(key=lambda x: x[1], reverse=True)`: insert an element after every
earlier element whose score is at least as large. -/
noncomputable def insert_scored (x : Memory × ℝ) : List (Memory × ℝ) → List (Memory × ℝ)
  | [] => [x]
  | y :: ys => if y.2 < x.2 then x :: y :: ys else y :: insert_scored x ys

/-- Stable sort by descending score (Python list.sort with reverse=True keeps the
original relative order of equal keys). -/
noncomputable def sort_scored_desc (l : List (Memory × ℝ)) : List (Memory × ℝ) :=
  l.foldl (fun acc x => insert_scored x acc) []

/-- MemoryRetriever.retrieve: read all active memories, apply the type and
confidence filters, return early when nothing survives, score and stably sort
descending, keep the top max_results with positive score, and mark each returned
memory accessed with current_turn. Returns the results and the updated store. -/
noncomputable def retrieve (cfg : RetrieverConfig) (st : StorageState) (query : String)
    (current_turn : Nat) (filter_types : Option (List String)) (min_confidence : ℚ) :
    List Memory × StorageState :=
  let all_mems : List Memory := st.get_all true
  let typed : List Memory :=
    match filter_types with
    | some ts => all_mems.filter (fun m => ts.contains m.type)
    | none => all_mems
  let surviving : List Memory := typed.filter (fun m => min_confidence ≤ m.confidence)
  if surviving.isEmpty then ([], st)
  else
    let scored : List (Memory × ℝ) :=
      surviving.map (fun m => (m, score_relevance cfg m query current_turn))
    let sorted := sort_scored_desc scored
    let top_mems := ((sorted.take cfg.max_results).filter (fun p => decide (0 < p.2))).map (·.1)
    (top_mems, top_mems.foldl (fun s m => (s.mark_accessed m.memory_id current_turn).1) st)

/-! ## Session Orchestrator (long_form_memory.py) -/

/-- ConversationTurn from memory_model.py, as recorded by process_turn. -/
structure ConversationTurn where
  turn_id : Nat
  user_message : String
  assistant_message : Option String
  timestamp : Option String
  extracted_memories : Option (List String)
  retrieved_memories : Option (List String)
deriving DecidableEq, Repr

/-- LongFormMemorySystem state. Wall-clock latency metrics are bookkeeping about
real time and are not modelled; every other field that any operation reads is
present. The external llm_client is carried although process_turn always invokes
extraction with use_llm=False. -/
structure MemorySystem where
  storage : StorageState
  llm_client : Option Unit
  embedding_model : Option (String → List ℚ)
  top_k : Nat
  auto_extract : Bool
  turn_count : Nat
  history : List ConversationTurn

/-- The retriever built by the LongFormMemorySystem constructor. -/
def MemorySystem.retrCfg (sys : MemorySystem) : RetrieverConfig :=
  { embedding_model := sys.embedding_model, max_results := sys.top_k }

/-- A freshly constructed LongFormMemorySystem over a new empty database. -/
def MemorySystem.fresh (llm_client : Option Unit)
    (embedding_model : Option (String → List ℚ)) (top_k : Nat) (auto_extract : Bool) :
    MemorySystem :=
  { storage := StorageState.empty, llm_client := llm_client
    embedding_model := embedding_model, top_k := top_k, auto_extract := auto_extract
    turn_count := 0, history := [] }

/-- LongFormMemorySystem.retrieve_memories: retrieve against the current turn
counter with optional type filter and min_conf defaulting to 0.5. -/
noncomputable def MemorySystem.retrieve_memories (sys : MemorySystem) (query : String)
    (types : Option (List String)) (min_conf : ℚ) : List Memory × MemorySystem :=
  let (mems, st) := retrieve sys.retrCfg sys.storage query sys.turn_count types min_conf
  (mems, { sys with storage := st })

/-- LongFormMemorySystem.process_turn: advance the turn counter, retrieve against
the user text (before any extraction), then extract with use_llm=False and
batch-save, and append the immutable turn record. Returns the new system state
together with the retrieved and the extracted memories. -/
noncomputable def MemorySystem.process_turn (sys : MemorySystem) (findall : Findall)
    (now : String) (user_msg : String) (assistant_msg : Option String)
    (should_extract : Bool) : MemorySystem × List Memory × List Memory :=
  let sys1 := { sys with turn_count := sys.turn_count + 1 }
  let (retrieved, sys2) := sys1.retrieve_memories user_msg none (5/10)
  let (extracted, sys3) :=
    if should_extract && sys2.auto_extract then
      let new_mems := extract_memories findall sys2.llm_client user_msg
        (assistant_msg.getD "") sys2.turn_count false now
      let (st2, _) := sys2.storage.save_batch new_mems
      (new_mems, { sys2 with storage := st2 })
    else ([], sys2)
  let turn : ConversationTurn :=
    { turn_id := sys3.turn_count, user_message := user_msg
      assistant_message := assistant_msg, timestamp := some now
      extracted_memories := some (extracted.map (·.memory_id))
      retrieved_memories := some (retrieved.map (·.memory_id)) }
  ({ sys3 with history := sys3.history ++ [turn] }, retrieved, extracted)

/-- LongFormMemorySystem.reset: clears the in-memory session state (turn counter,
history, metrics) but not the database. -/
def MemorySystem.reset (sys : MemorySystem) : MemorySystem :=
  { sys with turn_count := 0, history := [] }

/-- The JSON document assembled by LongFormMemorySystem.export_memories before it
is handed to json.dump: timestamp, total turns, and to_dict of every memory
returned by get_all (to_dict keeps the reattached embedding). -/
def export_dict (sys : MemorySystem) (now : String) : String × Nat × List Memory :=
  (now, sys.turn_count, (sys.storage.get_all true).map Memory.to_dict)

/-- LongFormMemorySystem.export_memories, under the assumption that the file is
writable: json.dump raises TypeError on a record holding a reattached numpy
embedding vector (an ndarray is not JSON serializable), the exception is caught
and the function returns False; otherwise the document is written and it returns
True. -/
def export_memories (sys : MemorySystem) (now : String) : Bool :=
  ((export_dict sys now).2.2).all (fun m => m.embedding = none)

/-! ## Pipeline step relations -/

/-- One pipeline operation of claim C3: a processed turn, a direct retrieval, a
direct mark_accessed on the store, or a session reset. The findall oracle and
timestamps are arbitrary, so the relation covers every real execution. -/
inductive PipelineStep : MemorySystem → MemorySystem → Prop
  | process (sys : MemorySystem) (findall : Findall) (now user_msg : String)
      (assistant_msg : Option String) (should_extract : Bool) :
      PipelineStep sys (sys.process_turn findall now user_msg assistant_msg should_extract).1
  | retrieveM (sys : MemorySystem) (query : String) (types : Option (List String))
      (min_conf : ℚ) :
      PipelineStep sys (sys.retrieve_memories query types min_conf).2
  | mark (sys : MemorySystem) (memory_id : String) (turn : Nat) :
      PipelineStep sys
        { sys with storage := (sys.storage.mark_accessed memory_id turn).1 }
  | reset (sys : MemorySystem) : PipelineStep sys sys.reset

/-- Reachability by a sequence of pipeline operations. -/
inductive PipelineReaches : MemorySystem → MemorySystem → Prop
  | refl (sys : MemorySystem) : PipelineReaches sys sys
  | tail {a b c : MemorySystem} : PipelineReaches a b → PipelineStep b c → PipelineReaches a c

/-- The normal-session operations: processed turns and retrievals only, with
mark_accessed applied only by retrieval and no reset. -/
inductive NormalStep : MemorySystem → MemorySystem → Prop
  | process (sys : MemorySystem) (findall : Findall) (now user_msg : String)
      (assistant_msg : Option String) (should_extract : Bool) :
      NormalStep sys (sys.process_turn findall now user_msg assistant_msg should_extract).1
  | retrieveM (sys : MemorySystem) (query : String) (types : Option (List String))
      (min_conf : ℚ) :
      NormalStep sys (sys.retrieve_memories query types min_conf).2

/-- Reachability by normal-session operations. -/
inductive NormalReaches : MemorySystem → MemorySystem → Prop
  | refl (sys : MemorySystem) : NormalReaches sys sys
  | tail {a b c : MemorySystem} : NormalReaches a b → NormalStep b c → NormalReaches a c

/-! ## Basic lemmas about the store -/

/-- get only returns a memory carrying the id it was asked for. -/
lemma StorageState.get_id {st : StorageState} {i : String} {m : Memory}
    (h : st.get i = some m) : m.memory_id = i := by
  unfold StorageState.get at h
  rcases hf : st.rows.find? (fun r => r.memory_id = i && r.active) with _ | r
  · rw [hf] at h; exact absurd h (by simp)
  · have hp := List.find?_some hf
    rw [hf] at h
    simp only [Option.some.injEq] at h
    subst h
    have hp2 : r.memory_id = i ∧ r.active = true := by simpa using hp
    simpa using hp2.1

/-- get succeeds exactly through an active row with the requested id. -/
lemma StorageState.get_row {st : StorageState} {i : String} {m : Memory}
    (h : st.get i = some m) :
    ∃ r ∈ st.rows, r.active = true ∧ r.memory_id = i ∧
      m.type = r.type ∧ m.key = r.key ∧ m.value = r.value ∧
      m.source_turn = r.source_turn ∧ m.confidence = r.confidence ∧
      m.created_at = r.created_at ∧ m.last_accessed_turn = r.last_accessed_turn ∧
      m.access_count = r.access_count ∧ m.metadata = r.metadata := by
  unfold StorageState.get at h
  rcases hf : st.rows.find? (fun r => r.memory_id = i && r.active) with _ | r
  · rw [hf] at h; exact absurd h (by simp)
  · have hp := List.find?_some hf
    have hmem := List.mem_of_find?_eq_some hf
    rw [hf] at h
    simp only [Option.some.injEq] at h
    subst h
    simp only [Bool.and_eq_true, decide_eq_true_eq] at hp
    exact ⟨r, hmem, hp.2, hp.1, rfl, rfl, rfl, rfl, rfl, rfl, rfl, rfl, rfl⟩

/-- Every memory produced by get_all is reproduced by get at its own id. -/
lemma StorageState.mem_get_all {st : StorageState} {b : Bool} {m : Memory}
    (h : m ∈ st.get_all b) : st.get m.memory_id = some m := by
  unfold StorageState.get_all at h
  rcases List.mem_filterMap.mp h with ⟨i, _, hget⟩
  rw [StorageState.get_id hget]
  exact hget

/-- Every memory produced by get_all stems from an active row with its id. -/
lemma StorageState.mem_get_all_row {st : StorageState} {b : Bool} {m : Memory}
    (h : m ∈ st.get_all b) :
    ∃ r ∈ st.rows, r.active = true ∧ r.memory_id = m.memory_id := by
  rcases StorageState.get_row (StorageState.mem_get_all h) with ⟨r, hr, ha, hi, _⟩
  exact ⟨r, hr, ha, hi⟩

/-! ## Claim C9 -/

/-- On a store without the requested id, get misses while mark_accessed and
deactivate match zero rows: the UPDATE is a no-op but still reports true. -/
lemma ops_on_missing_id (st : StorageState) (i : String)
    (h : ∀ r ∈ st.rows, r.memory_id ≠ i) :
    st.get i = none
    ∧ st.mark_accessed i 0 = (st, true)
    ∧ (∀ t, st.mark_accessed i t = (st, true))
    ∧ st.deactivate i = (st, true) := by
  have hfind : st.rows.find? (fun r => r.memory_id = i && r.active) = none := by
    rw [List.find?_eq_none]
    intro r hr
    simp [h r hr]
  have hmark : ∀ t, st.mark_accessed i t = (st, true) := by
    intro t
    unfold StorageState.mark_accessed
    have heq : st.rows.map (fun r =>
        if r.memory_id = i then
          { r with last_accessed_turn := some t, access_count := r.access_count + 1 }
        else r) = st.rows := by
      calc st.rows.map (fun r =>
            if r.memory_id = i then
              { r with last_accessed_turn := some t, access_count := r.access_count + 1 }
            else r)
          = st.rows.map id := List.map_congr_left (fun r hr => by simp [h r hr])
        _ = st.rows := List.map_id _
    simp [heq]
  have hdeact : st.deactivate i = (st, true) := by
    unfold StorageState.deactivate
    have heq : st.rows.map (fun r =>
        if r.memory_id = i then { r with active := false } else r) = st.rows := by
      calc st.rows.map (fun r => if r.memory_id = i then { r with active := false } else r)
          = st.rows.map id := List.map_congr_left (fun r hr => by simp [h r hr])
        _ = st.rows := List.map_id _
    simp [heq]
  exact ⟨by unfold StorageState.get; rw [hfind], hmark 0, hmark, hdeact⟩

/-- C9 counterexample: on the empty store the never-saved id "ghost" is reported
as not found by get, but mark_accessed and deactivate report success (true),
contradicting the claim that every id-taking operation reports not-found or
failure for a never-saved id. -/
theorem never_saved_id_reports_success :
    StorageState.empty.get "ghost" = none
    ∧ (StorageState.empty.mark_accessed "ghost" 1).2 = true
    ∧ (StorageState.empty.deactivate "ghost").2 = true := by
  exact ⟨rfl, rfl, rfl⟩

/-- C9 (amended): for a never-saved id, get reports not found, and mark_accessed
and deactivate never raise and leave the store unchanged, but they report
success (true) rather than a failure. -/
theorem never_saved_id_amended (st : StorageState) (i : String) (t : Nat)
    (h : ∀ r ∈ st.rows, r.memory_id ≠ i) :
    st.get i = none ∧ st.mark_accessed i t = (st, true) ∧ st.deactivate i = (st, true) := by
  obtain ⟨hget, _, hmark, hdeact⟩ := ops_on_missing_id st i h
  exact ⟨hget, hmark t, hdeact⟩

/-- C9 witness: the amended statement instantiated on the empty store. -/
theorem never_saved_id_amended_witness :
    StorageState.empty.get "ghost" = none
    ∧ StorageState.empty.mark_accessed "ghost" 1 = (StorageState.empty, true)
    ∧ StorageState.empty.deactivate "ghost" = (StorageState.empty, true) :=
  never_saved_id_amended StorageState.empty "ghost" 1
    (by intro r hr; simp [StorageState.empty] at hr)

/-- Two rows sharing an id coincide when the id column is duplicate-free. -/
lemma row_unique {rows : List Row} (huniq : (rows.map (·.memory_id)).Nodup)
    {q r : Row} (hq : q ∈ rows) (hr : r ∈ rows) (h : q.memory_id = r.memory_id) :
    q = r :=
  List.inj_on_of_nodup_map huniq hq hr h

/-! ## Claim C10 -/

/-- C10: a deactivated row still present in the durable table is excluded from
get, yet mark_accessed on its id returns success and still increments its
access count and sets its last accessed turn, and deactivate also returns
success. -/
theorem deactivated_row_still_updated (st : StorageState) (r : Row) (t : Nat)
    (hr : r ∈ st.rows) (hinactive : r.active = false)
    (huniq : (st.rows.map (·.memory_id)).Nodup) :
    st.get r.memory_id = none
    ∧ (st.mark_accessed r.memory_id t).2 = true
    ∧ { r with last_accessed_turn := some t, access_count := r.access_count + 1 }
        ∈ (st.mark_accessed r.memory_id t).1.rows
    ∧ (st.deactivate r.memory_id).2 = true := by
  refine ⟨?_, rfl, ?_, rfl⟩
  · unfold StorageState.get
    have hfind : st.rows.find? (fun q => q.memory_id = r.memory_id && q.active) = none := by
      rw [List.find?_eq_none]
      intro q hq
      by_cases hid : q.memory_id = r.memory_id
      · rw [row_unique huniq hq hr hid, hinactive]
        simp
      · simp [hid]
    rw [hfind]
  · unfold StorageState.mark_accessed
    simp only [List.mem_map]
    exact ⟨r, hr, by simp⟩

/-- An inactive sample row and its one-row store, used for the C10 witness. -/
def rowD1 : Row :=
  { memory_id := "d1"
    type := "fact"
    key := "k"
    value := "v"
    source_turn := 2
    confidence := 9/10
    created_at := "t"
    last_accessed_turn := none
    access_count := 0
    metadata := none
    active := false }

/-- The one-row store holding only the inactive row rowD1. -/
def stD1 : StorageState := ⟨[rowD1], []⟩

/-- C10 witness: a single-row store whose row is inactive. -/
theorem deactivated_row_still_updated_witness :
    stD1.get "d1" = none
    ∧ (stD1.mark_accessed "d1" 7).2 = true
    ∧ { rowD1 with last_accessed_turn := some 7, access_count := 1 }
        ∈ (stD1.mark_accessed "d1" 7).1.rows
    ∧ (stD1.deactivate "d1").2 = true := by
  have h := deactivated_row_still_updated stD1 rowD1 7 (by simp [stD1])
    (by simp [rowD1]) (by simp [stD1])
  simpa [rowD1] using h

/-! ## Claim C7 -/

/-- Python truthiness keeps metadata unchanged unless it is the empty dictionary. -/
lemma pyTruthyMeta_eq {md : Option (List (String × String))} (h : md ≠ some []) :
    pyTruthyMeta md = md := by
  cases md with
  | none => rfl
  | some d =>
      cases d with
      | nil => exact absurd rfl h
      | cons a l => simp [pyTruthyMeta]

/-- C7 (amended): saving a memory and reading it back by id returns a record
equal in all durable fields, provided the metadata is not the (falsy) empty
dictionary; the embedding is not part of the comparison. -/
theorem save_get_roundtrip (st : StorageState) (m : Memory) (hmeta : m.metadata ≠ some []) :
    ∃ m2, (st.save m).1.get m.memory_id = some m2
      ∧ m2.type = m.type ∧ m2.key = m.key ∧ m2.value = m.value
      ∧ m2.source_turn = m.source_turn ∧ m2.confidence = m.confidence
      ∧ m2.created_at = m.created_at ∧ m2.last_accessed_turn = m.last_accessed_turn
      ∧ m2.access_count = m.access_count ∧ m2.metadata = m.metadata := by
  have hrows : (st.save m).1.rows
      = st.rows.filter (fun r => r.memory_id ≠ m.memory_id) ++ [m.toRow] := rfl
  have hfind : ((st.save m).1.rows).find?
      (fun r => r.memory_id = m.memory_id && r.active) = some m.toRow := by
    rw [hrows, List.find?_append]
    have h1 : (st.rows.filter (fun r => r.memory_id ≠ m.memory_id)).find?
        (fun r => r.memory_id = m.memory_id && r.active) = none := by
      rw [List.find?_eq_none]
      intro r hr
      have := (List.mem_filter.mp hr).2
      simp only [decide_not, Bool.not_eq_eq_eq_not, Bool.not_true,
        decide_eq_false_iff_not] at this
      simp [this]
    rw [h1]
    simp [List.find?, Memory.toRow]
  unfold StorageState.get
  rw [hfind]
  refine ⟨_, rfl, ?_, ?_, ?_, ?_, ?_, ?_, ?_, ?_, ?_⟩
  all_goals simp [Memory.toRow, pyTruthyMeta_eq hmeta]

/-- A memory carrying the empty dictionary as metadata, for the C7 counterexample. -/
def memEmptyMeta : Memory :=
  { memory_id := "c7"
    type := "fact"
    key := "k"
    value := "v"
    source_turn := 1
    confidence := 1/2
    created_at := "t"
    metadata := some [] }

/-- C7 counterexample: an empty metadata dictionary is falsy in Python, so save
stores NULL and get reads it back as None, which is not equal to the saved
empty dictionary — the round-trip is not field-equal for this memory. -/
theorem save_get_roundtrip_counterexample :
    ((StorageState.empty.save memEmptyMeta).1.get "c7").map Memory.metadata = some none
    ∧ memEmptyMeta.metadata = some [] := by
  constructor
  · rfl
  · rfl

/-- C7 witness: the amended round-trip applied to a metadata-free memory. -/
theorem save_get_roundtrip_witness :
    ∃ m2, (StorageState.empty.save memSample).1.get memSample.memory_id = some m2
      ∧ m2.type = memSample.type ∧ m2.key = memSample.key ∧ m2.value = memSample.value
      ∧ m2.source_turn = memSample.source_turn ∧ m2.confidence = memSample.confidence
      ∧ m2.created_at = memSample.created_at
      ∧ m2.last_accessed_turn = memSample.last_accessed_turn
      ∧ m2.access_count = memSample.access_count ∧ m2.metadata = memSample.metadata :=
  save_get_roundtrip StorageState.empty memSample (by simp [memSample])

/-! ## Claim C1 -/

/-- A memory with an embedding vector, for the export claim. -/
def memWithEmbedding : Memory :=
  { memory_id := "e1"
    type := "fact"
    key := "k"
    value := "v"
    source_turn := 1
    confidence := 4/5
    created_at := "t"
    embedding := some [1/2] }

/-- The store after saving memWithEmbedding: the row is durable and the vector
sits in the volatile side-table. -/
def stWithEmbedding : StorageState := (StorageState.empty.save memWithEmbedding).1

/-- A system over stWithEmbedding at turn 3. -/
def sysWithEmbedding : MemorySystem :=
  { storage := stWithEmbedding
    llm_client := none
    embedding_model := none
    top_k := 5
    auto_extract := true
    turn_count := 3
    history := [] }

/-- C1 (code bug): export_memories serializes to_dict records, which keep the
reattached embedding instead of nulling it (Memory.to_json, which nulls it, is
not used), so json.dump raises on the numpy vector and the export returns
False even though the file is writable. The per-memory record of the attempted
document carries the non-null embedding. -/
theorem export_embedding_bug :
    export_memories sysWithEmbedding "ts" = false
    ∧ ((export_dict sysWithEmbedding "ts").2.2).map Memory.embedding = [some [1/2]]
    ∧ (Memory.to_json_data memWithEmbedding).embedding = none := by
  refine ⟨rfl, rfl, rfl⟩

/-! ## Sorting and retrieval membership lemmas -/

/-- Inserting into the stable descending sort only adds the element. -/
lemma insert_scored_perm (x : Memory × ℝ) :
    ∀ l : List (Memory × ℝ), List.Perm (insert_scored x l) (x :: l) := by
  intro l
  induction l with
  | nil => simp [insert_scored]
  | cons y ys ih =>
      unfold insert_scored
      by_cases h : y.2 < x.2
      · simp [h]
      · simp only [h, if_false]
        exact (ih.cons y).trans (List.Perm.swap x y ys)

/-- The stable descending sort permutes its input. -/
lemma sort_scored_perm (l : List (Memory × ℝ)) : List.Perm (sort_scored_desc l) l := by
  have aux : ∀ (l acc : List (Memory × ℝ)),
      List.Perm (l.foldl (fun acc x => insert_scored x acc) acc) (acc ++ l) := by
    intro l
    induction l with
    | nil => intro acc; simp
    | cons x xs ih =>
        intro acc
        have h1 : (x :: xs).foldl (fun acc x => insert_scored x acc) acc
            = xs.foldl (fun acc x => insert_scored x acc) (insert_scored x acc) := rfl
        rw [h1]
        refine (ih (insert_scored x acc)).trans ?_
        refine ((insert_scored_perm x acc).append_right xs).trans ?_
        exact List.perm_middle.symm
  simpa using aux l []

/-- Membership in the top slice of the scored, sorted, thresholded list implies
membership in the underlying list. -/
lemma mem_top_of_scored (cfg : RetrieverConfig) (q : String) (t : Nat)
    (l : List Memory) {m : Memory}
    (h : m ∈ (((sort_scored_desc (l.map (fun x => (x, score_relevance cfg x q t)))).take
        cfg.max_results).filter (fun p => decide (0 < p.2))).map (fun p => p.1)) :
    m ∈ l := by
  rcases List.mem_map.mp h with ⟨p, hp, hpm⟩
  have hp1 : p ∈ (sort_scored_desc (l.map (fun x => (x, score_relevance cfg x q t)))).take
      cfg.max_results := (List.mem_filter.mp hp).1
  have hp2 : p ∈ sort_scored_desc (l.map (fun x => (x, score_relevance cfg x q t))) :=
    List.take_subset _ _ hp1
  have hp3 : p ∈ l.map (fun x => (x, score_relevance cfg x q t)) :=
    (sort_scored_perm _).mem_iff.mp hp2
  rcases List.mem_map.mp hp3 with ⟨m', hm', hmp⟩
  have hm'm : m' = m := by
    have := congrArg Prod.fst hmp
    simpa [hpm] using this
  rwa [hm'm] at hm'

/-- Every memory returned by retrieve comes from get_all over active rows. -/
lemma retrieve_subset {cfg : RetrieverConfig} {st : StorageState} {q : String}
    {t : Nat} {ft : Option (List String)} {mc : ℚ} {m : Memory}
    (h : m ∈ (retrieve cfg st q t ft mc).1) : m ∈ st.get_all true := by
  unfold retrieve at h
  cases ft with
  | none =>
      by_cases hemp : ((st.get_all true).filter
          (fun m => decide (mc ≤ m.confidence))).isEmpty = true
      · rw [if_pos hemp] at h
        simp at h
      · rw [if_neg hemp] at h
        have hsub := mem_top_of_scored cfg q t
          ((st.get_all true).filter (fun m => decide (mc ≤ m.confidence))) h
        exact (List.mem_filter.mp hsub).1
  | some ts =>
      by_cases hemp : (((st.get_all true).filter (fun m => ts.contains m.type)).filter
          (fun m => decide (mc ≤ m.confidence))).isEmpty = true
      · rw [if_pos hemp] at h
        simp at h
      · rw [if_neg hemp] at h
        have hsub := mem_top_of_scored cfg q t
          (((st.get_all true).filter (fun m => ts.contains m.type)).filter
            (fun m => decide (mc ≤ m.confidence))) h
        exact (List.mem_filter.mp (List.mem_filter.mp hsub).1).1

/-! ## Extraction lemmas and Claim C2 -/

/-- Memories can only enter an accumulating fold through steps that either keep
the accumulator or append an element satisfying C. -/
lemma mem_foldl_acc {σ : Type} {C : Memory → Prop} (f : List Memory → σ → List Memory)
    (hf : ∀ acc x m, m ∈ f acc x → m ∈ acc ∨ C m) :
    ∀ (l : List σ) (acc : List Memory) (m : Memory), m ∈ l.foldl f acc → m ∈ acc ∨ C m := by
  intro l
  induction l with
  | nil => intro acc m hm; exact Or.inl hm
  | cons x xs ih =>
      intro acc m hm
      have := ih (f acc x) m hm
      rcases this with h | h
      · exact hf acc x m h
      · exact Or.inr h

/-- Every memory the pattern strategy produces has the turn as its source turn,
no last-accessed turn, a zero access count, and one of the three fixed
per-family confidences. -/
lemma extract_patterns_fields (findall : Findall) (u a : String) (turn : Nat) (now : String) :
    ∀ m ∈ extract_with_patterns findall u a turn now,
      m.source_turn = turn ∧ m.last_accessed_turn = none ∧ m.access_count = 0 ∧
      (m.confidence = 85/100 ∨ m.confidence = 8/10 ∨ m.confidence = 75/100) := by
  intro m hm
  set C : Memory → Prop := fun m =>
    m.source_turn = turn ∧ m.last_accessed_turn = none ∧ m.access_count = 0 ∧
      (m.confidence = 85/100 ∨ m.confidence = 8/10 ∨ m.confidence = 75/100) with hC
  show C m
  unfold extract_with_patterns at hm
  by_cases h1 : (pyWords u).length < 5
  · rw [if_pos h1] at hm; simp at hm
  rw [if_neg h1] at hm
  by_cases h2 : boring_phrases.any (fun p => strContains (pyLower u) p) = true
  · rw [if_pos h2] at hm; simp at hm
  rw [if_neg h2] at hm
  -- peel the three nested pattern folds from the outside in
  have innerPref : ∀ (pat : String) (acc : List Memory) (mm : Memory),
      mm ∈ (findall pat (pyLower u)).foldl (fun acc gs =>
        let s := joinGroups gs
        if 3 < (pyStrip s).length then acc ++ [mkPrefMemory s turn now] else acc) acc →
      mm ∈ acc ∨ C mm := by
    intro pat acc mm hmm
    refine mem_foldl_acc _ ?_ _ acc mm hmm
    intro acc2 gs m2 hm2
    by_cases hlen : 3 < (pyStrip (joinGroups gs)).length
    · simp only [hlen, if_true, List.mem_append, List.mem_singleton] at hm2
      rcases hm2 with h | h
      · exact Or.inl h
      · subst h; exact Or.inr ⟨rfl, rfl, rfl, Or.inl rfl⟩
    · simp only [hlen, if_false] at hm2
      exact Or.inl hm2
  have innerFact : ∀ (pat : String) (acc : List Memory) (mm : Memory),
      mm ∈ (findall pat (pyLower u)).foldl (fun acc gs =>
        let s := joinGroups gs
        if 2 < (pyStrip s).length then acc ++ [mkFactMemory s turn now] else acc) acc →
      mm ∈ acc ∨ C mm := by
    intro pat acc mm hmm
    refine mem_foldl_acc _ ?_ _ acc mm hmm
    intro acc2 gs m2 hm2
    by_cases hlen : 2 < (pyStrip (joinGroups gs)).length
    · simp only [hlen, if_true, List.mem_append, List.mem_singleton] at hm2
      rcases hm2 with h | h
      · exact Or.inl h
      · subst h; exact Or.inr ⟨rfl, rfl, rfl, Or.inr (Or.inl rfl)⟩
    · simp only [hlen, if_false] at hm2
      exact Or.inl hm2
  have innerCommit : ∀ (pat : String) (acc : List Memory) (mm : Memory),
      mm ∈ (findall pat (pyLower u)).foldl (fun acc gs =>
        let s := joinGroups gs
        if 2 < (pyStrip s).length then acc ++ [mkCommitmentMemory s acc.length turn now]
        else acc) acc →
      mm ∈ acc ∨ C mm := by
    intro pat acc mm hmm
    refine mem_foldl_acc _ ?_ _ acc mm hmm
    intro acc2 gs m2 hm2
    by_cases hlen : 2 < (pyStrip (joinGroups gs)).length
    · simp only [hlen, if_true, List.mem_append, List.mem_singleton] at hm2
      rcases hm2 with h | h
      · exact Or.inl h
      · subst h; exact Or.inr ⟨rfl, rfl, rfl, Or.inr (Or.inr rfl)⟩
    · simp only [hlen, if_false] at hm2
      exact Or.inl hm2
  have step3 := mem_foldl_acc _ (fun acc pat mm hmm => innerCommit pat acc mm hmm)
    commitment_patterns _ m hm
  rcases step3 with hm3 | h
  · have step2 := mem_foldl_acc _ (fun acc pat mm hmm => innerFact pat acc mm hmm)
      fact_patterns _ m hm3
    rcases step2 with hm2 | h
    · have step1 := mem_foldl_acc _ (fun acc pat mm hmm => innerPref pat acc mm hmm)
        pref_patterns _ m hm2
      rcases step1 with hm1 | h
      · simp at hm1
      · exact h
    · exact h
  · exact h

/-- With a configured client the external-model strategy always yields no
memories: the placeholder model answers with the empty JSON array. -/
lemma extract_llm_empty (findall : Findall) (c : Unit) (u a : String) (turn : Nat)
    (now : String) : extract_with_llm findall (some c) u a turn now = [] := rfl

/-- C2: every candidate memory produced by extract_memories, on either strategy,
for every matcher behaviour, input text and turn index, has a confidence in
[0, 1]. -/
theorem extraction_confidence_in_unit_interval (findall : Findall)
    (llm_client : Option Unit) (u a : String) (turn : Nat) (use_llm : Bool)
    (now : String) (m : Memory)
    (hm : m ∈ extract_memories findall llm_client u a turn use_llm now) :
    0 ≤ m.confidence ∧ m.confidence ≤ 1 := by
  unfold extract_memories at hm
  by_cases hllm : (use_llm && llm_client.isSome) = true
  · rw [if_pos hllm] at hm
    rcases llm_client with _ | c
    · simp at hllm
    · rw [extract_llm_empty] at hm
      simp at hm
  · rw [if_neg hllm] at hm
    have := extract_patterns_fields findall u a turn now m hm
    rcases this.2.2.2 with h | h | h <;> rw [h] <;> norm_num

/-- The matcher used by the C2 witness: the allergy pattern matches once. -/
def findallW : Findall := fun pat _ =>
  if pat = "allergic to ([a-z]+)" then [["peanuts"]] else []

/-- The user message of the C2 witness: long enough and not boring. -/
def msgW : String := "i must mention being allergic to peanuts today"

/-- C2 witness: a concrete extraction run on msgW produces a first memory (the
allergy fact), and its confidence lies in [0, 1]. -/
theorem extraction_confidence_witness :
    ((extract_memories findallW none msgW "" 3 false "T0").headD memSample)
        ∈ extract_memories findallW none msgW "" 3 false "T0"
    ∧ 0 ≤ ((extract_memories findallW none msgW "" 3 false "T0").headD memSample).confidence
    ∧ ((extract_memories findallW none msgW "" 3 false "T0").headD memSample).confidence ≤ 1 := by
  have hmem : ((extract_memories findallW none msgW "" 3 false "T0").headD memSample)
      ∈ extract_memories findallW none msgW "" 3 false "T0" := by
    cases hl : extract_memories findallW none msgW "" 3 false "T0" with
    | nil => exact absurd hl (by decide)
    | cons a l => simp [hl]
  exact ⟨hmem,
    extraction_confidence_in_unit_interval findallW none msgW "" 3 false "T0" _ hmem⟩

/-! ## Scoring lemmas, Claims C5 and C6 -/

/-- The Jaccard keyword score is nonnegative. -/
lemma keyword_match_nonneg (q : String) (m : Memory) : 0 ≤ keyword_match q m := by
  unfold keyword_match
  dsimp only
  split
  · exact le_refl 0
  · split
    · exact le_refl 0
    · positivity

/-- The recency score is clamped below by 0. -/
lemma recency_score_nonneg (m : Memory) (t : Nat) : 0 ≤ recency_score m t :=
  le_max_left 0 _

/-- The recency score is clamped above by 1. -/
lemma recency_score_le_one (m : Memory) (t : Nat) : recency_score m t ≤ 1 :=
  max_le (by norm_num) (min_le_left 1 _)

/-- The frequency score is nonnegative. -/
lemma frequency_score_nonneg (m : Memory) : 0 ≤ frequency_score m := by
  unfold frequency_score
  split
  · norm_num
  · refine le_min (by norm_num) ?_
    apply div_nonneg
    · apply Real.log_nonneg
      have : (0 : ℝ) ≤ (m.access_count : ℝ) := Nat.cast_nonneg _
      linarith
    · exact Real.log_nonneg (by norm_num)

/-- When the semantic factor is inapplicable, the composite score is the weighted
sum of the four remaining factors with each weight divided by the remaining
total 0.7. -/
lemma score_relevance_no_semantic (cfg : RetrieverConfig) (mem : Memory) (q : String)
    (t : Nat) (h : mem.embedding = none ∨ cfg.embedding_model = none) :
    score_relevance cfg mem q t
      = (keyword_match q mem : ℝ) * (0.3 / 0.7) + recency_score mem t * (0.15 / 0.7)
        + frequency_score mem * (0.1 / 0.7) + (mem.confidence : ℝ) * (0.15 / 0.7) := by
  have hsem : (mem.embedding.isSome && cfg.embedding_model.isSome) = false := by
    rcases h with h | h <;> simp [h]
  unfold score_relevance
  rw [hsem]
  simp only [Bool.false_eq_true, if_false, List.nil_append, List.cons_append,
    List.singleton_append, weighted_average, List.sum_cons, List.sum_nil, List.map_cons,
    List.map_nil, List.zipWith_cons_cons, List.zipWith_nil_right]
  have hT : (0.3 : ℝ) + (0.15 + (0.1 + (0.15 + 0))) = 0.7 := by norm_num
  rw [hT]
  ring

/-- C5: with no stored embedding or no embedding collaborator the composite
relevance score is the weighted sum of the remaining four factors with weights
renormalized by their total 0.7, and those renormalized weights sum to 1; and
the weighted combination of two factor scores 1.0 (weight 0.3) and 0.0
(weight 0.7) — weights already summing to 1 — equals 0.3. -/
theorem composite_renormalized_without_semantic :
    (∀ (cfg : RetrieverConfig) (mem : Memory) (q : String) (t : Nat),
      mem.embedding = none ∨ cfg.embedding_model = none →
      score_relevance cfg mem q t
        = (keyword_match q mem : ℝ) * (0.3 / 0.7) + recency_score mem t * (0.15 / 0.7)
          + frequency_score mem * (0.1 / 0.7) + (mem.confidence : ℝ) * (0.15 / 0.7)
      ∧ (0.3 / 0.7 : ℝ) + 0.15 / 0.7 + 0.1 / 0.7 + 0.15 / 0.7 = 1)
    ∧ weighted_average [1, 0] [0.3, 0.7] = 0.3 := by
  constructor
  · intro cfg mem q t h
    exact ⟨score_relevance_no_semantic cfg mem q t h, by norm_num⟩
  · simp only [weighted_average, List.sum_cons, List.sum_nil, List.map_cons, List.map_nil,
      List.zipWith_cons_cons, List.zipWith_nil_right]
    norm_num

/-- C5 witness: the renormalized form evaluated on a memory with no embedding. -/
theorem composite_renormalized_without_semantic_witness :
    score_relevance { embedding_model := none, max_results := 5 } memSample "q" 2
      = (keyword_match "q" memSample : ℝ) * (0.3 / 0.7)
        + recency_score memSample 2 * (0.15 / 0.7)
        + frequency_score memSample * (0.1 / 0.7)
        + (memSample.confidence : ℝ) * (0.15 / 0.7)
    ∧ (0.3 / 0.7 : ℝ) + 0.15 / 0.7 + 0.1 / 0.7 + 0.15 / 0.7 = 1 :=
  composite_renormalized_without_semantic.1
    { embedding_model := none, max_results := 5 } memSample "q" 2 (Or.inl rfl)

/-- The numeric core of C6: the sixth-order Taylor bound pins exp(-0.693) to
within 0.01 of one half. -/
lemma exp_neg_693_near_half : |Real.exp (-(0.693 : ℝ)) - 0.5| ≤ 0.01 := by
  have hb := Real.exp_bound (x := -(0.693 : ℝ)) (by rw [abs_neg]; rw [abs_of_nonneg] <;> norm_num)
    (n := 6) (by norm_num)
  have hsum : ∑ m ∈ Finset.range 6, (-(0.693 : ℝ)) ^ m / m.factorial
      = 1 - 0.693 + 0.693 ^ 2 / 2 - 0.693 ^ 3 / 6 + 0.693 ^ 4 / 24 - 0.693 ^ 5 / 120 := by
    simp only [Finset.sum_range_succ, Finset.sum_range_zero, Nat.factorial]
    push_cast
    ring
  rw [hsum] at hb
  have habs : |(-(0.693 : ℝ))| = 0.693 := by rw [abs_neg]; exact abs_of_nonneg (by norm_num)
  rw [habs] at hb
  have htri := abs_sub_le (Real.exp (-(0.693 : ℝ)))
    (1 - 0.693 + 0.693 ^ 2 / 2 - 0.693 ^ 3 / 6 + 0.693 ^ 4 / 24 - 0.693 ^ 5 / 120) 0.5
  have h2 : |(1 : ℝ) - 0.693 + 0.693 ^ 2 / 2 - 0.693 ^ 3 / 6 + 0.693 ^ 4 / 24
      - 0.693 ^ 5 / 120 - 0.5| ≤ 0.0001 := by
    rw [abs_le]
    norm_num
  calc |Real.exp (-(0.693 : ℝ)) - 0.5| ≤ _ := htri
    _ ≤ 0.693 ^ 6 * (↑(Nat.succ 6) / (↑(Nat.factorial 6) * 6)) + 0.0001 := by
        exact add_le_add hb h2
    _ ≤ 0.01 := by norm_num [Nat.factorial]

/-- C6: the clamped exponential recency score is monotonically non-increasing in
the turn gap, equals 1 at gap 0, and lies within 0.01 of one half at gap 100. -/
theorem recency_decay_properties :
    (∀ (m : Memory) (c1 c2 : Nat),
        ((c1 : ℤ) - (m.source_turn : ℤ)) ≤ ((c2 : ℤ) - (m.source_turn : ℤ)) →
        recency_score m c2 ≤ recency_score m c1)
    ∧ (∀ m : Memory, recency_score m m.source_turn = 1)
    ∧ (∀ (m : Memory) (c : Nat), ((c : ℤ) - (m.source_turn : ℤ)) = 100 →
        |recency_score m c - 0.5| ≤ 0.01) := by
  refine ⟨?_, ?_, ?_⟩
  · intro m c1 c2 hle
    unfold recency_score
    dsimp only
    apply max_le_max le_rfl
    apply min_le_min le_rfl
    apply Real.exp_le_exp.mpr
    have hcast : ((c1 : ℝ) - (m.source_turn : ℝ)) ≤ ((c2 : ℝ) - (m.source_turn : ℝ)) := by
      exact_mod_cast hle
    have hmul := mul_le_mul_of_nonpos_left hcast (by norm_num : (-(0.693 / 100) : ℝ) ≤ 0)
    push_cast
    linarith
  · intro m
    unfold recency_score
    dsimp only
    norm_num
  · intro m c hgap
    unfold recency_score
    dsimp only
    have harg : ((((c : ℤ) - (m.source_turn : ℤ)) : ℤ) : ℝ) = 100 := by
      rw [hgap]; norm_num
    simp only [harg]
    have h1 : (-(0.693 / 100) * (100 : ℝ)) = -(0.693) := by norm_num
    rw [h1]
    have hle1 : Real.exp (-(0.693 : ℝ)) ≤ 1 := Real.exp_le_one_iff.mpr (by norm_num)
    have hpos : 0 < Real.exp (-(0.693 : ℝ)) := Real.exp_pos _
    rw [min_eq_right hle1, max_eq_right (le_of_lt hpos)]
    exact exp_neg_693_near_half

/-- C6 witness: the three properties at concrete gaps (7 versus 9, gap 0, gap
100). -/
theorem recency_decay_properties_witness :
    recency_score memSample 10 ≤ recency_score memSample 8
    ∧ recency_score memSample memSample.source_turn = 1
    ∧ |recency_score memSample 101 - 0.5| ≤ 0.01 :=
  ⟨recency_decay_properties.1 memSample 8 10 (by norm_num),
   recency_decay_properties.2.1 memSample,
   recency_decay_properties.2.2 memSample 101 (by norm_num [memSample])⟩

/-! ## Claim C4 -/

/-- The single-id UPDATE of mark_accessed, row by row. -/
lemma mark_accessed_rows (st : StorageState) (i : String) (t : Nat) :
    (st.mark_accessed i t).1.rows
      = st.rows.map (fun r =>
          if r.memory_id = i then
            { r with last_accessed_turn := some t, access_count := r.access_count + 1 }
          else r) := rfl

/-- Folding mark_accessed over a duplicate-free id list updates exactly the rows
whose id occurs in the list, once each, and leaves the side-table alone. -/
lemma mark_fold_rows (t : Nat) :
    ∀ (ids : List String) (st : StorageState), ids.Nodup →
    (ids.foldl (fun s i => (s.mark_accessed i t).1) st).rows
      = st.rows.map (fun r =>
          if r.memory_id ∈ ids
          then { r with last_accessed_turn := some t, access_count := r.access_count + 1 }
          else r)
    ∧ (ids.foldl (fun s i => (s.mark_accessed i t).1) st).embeddings = st.embeddings := by
  intro ids
  induction ids with
  | nil =>
      intro st _
      constructor
      · calc st.rows = st.rows.map id := (List.map_id _).symm
          _ = _ := List.map_congr_left (fun r _ => by simp)
      · rfl
  | cons i is ih =>
      intro st hnd
      have hni : i ∉ is := (List.nodup_cons.mp hnd).1
      have hnd2 : is.Nodup := (List.nodup_cons.mp hnd).2
      have hfold : ((i :: is).foldl (fun s i => (s.mark_accessed i t).1) st)
          = is.foldl (fun s i => (s.mark_accessed i t).1) (st.mark_accessed i t).1 := rfl
      rw [hfold]
      obtain ⟨hrows, hembs⟩ := ih (st.mark_accessed i t).1 hnd2
      refine ⟨?_, by rw [hembs]; rfl⟩
      rw [hrows, mark_accessed_rows, List.map_map]
      apply List.map_congr_left
      intro r _
      simp only [Function.comp_apply]
      by_cases hid : r.memory_id = i
      · rw [if_pos hid]
        have hmem2 : ¬ (({ r with last_accessed_turn := some t, access_count := r.access_count + 1 } : Row).memory_id ∈ is) := by simpa [hid] using hni
        rw [if_neg hmem2, if_pos (by simp [hid])]
      · rw [if_neg hid]
        by_cases hmem : r.memory_id ∈ is
        · rw [if_pos hmem, if_pos (by simp [hmem])]
        · rw [if_neg hmem, if_neg (by simp [hid, hmem])]

/-- filterMap through get keeps an id sublist. -/
lemma filterMap_get_ids_sublist (st : StorageState) :
    ∀ ids : List String, ((ids.filterMap st.get).map (·.memory_id)).Sublist ids := by
  intro ids
  induction ids with
  | nil => simp
  | cons i is ih =>
      cases hget : st.get i with
      | none =>
          rw [List.filterMap_cons_none hget]
          exact ih.cons i
      | some m =>
          rw [List.filterMap_cons_some hget]
          have : m.memory_id = i := StorageState.get_id hget
          simpa [this] using ih.cons₂ i

/-- get_all keeps the id column duplicate-free. -/
lemma get_all_ids_nodup {st : StorageState} (h : (st.rows.map (·.memory_id)).Nodup)
    (b : Bool) : ((st.get_all b).map (·.memory_id)).Nodup := by
  have hsub1 : ((st.get_all b).map (·.memory_id)).Sublist
      (((if b then st.rows.filter (·.active) else st.rows)).map (·.memory_id)) :=
    filterMap_get_ids_sublist st _
  have hsub2 : (((if b then st.rows.filter (·.active) else st.rows)).map
      (·.memory_id)).Sublist (st.rows.map (·.memory_id)) := by
    cases b with
    | true => exact (List.filter_sublist _).map _
    | false => simp
  exact ((hsub1.trans hsub2).nodup h)

/-- The top slice of the scored sorted thresholded list keeps a duplicate-free id
column. -/
lemma top_ids_nodup (cfg : RetrieverConfig) (q : String) (t : Nat) (l : List Memory)
    (h : (l.map (·.memory_id)).Nodup) :
    (((((sort_scored_desc (l.map (fun x => (x, score_relevance cfg x q t)))).take
        cfg.max_results).filter (fun p => decide (0 < p.2))).map (fun p => p.1)).map
          (·.memory_id)).Nodup := by
  have hperm : List.Perm ((sort_scored_desc (l.map (fun x =>
      (x, score_relevance cfg x q t)))).map (fun p => p.1)) l := by
    have h1 := (sort_scored_perm (l.map (fun x => (x, score_relevance cfg x q t)))).map
      (fun p : Memory × ℝ => p.1)
    rw [List.map_map] at h1
    have h2 : l.map ((fun p : Memory × ℝ => p.1) ∘ (fun x => (x, score_relevance cfg x q t)))
        = l := by
      have h3 : ((fun p : Memory × ℝ => p.1) ∘ (fun x => (x, score_relevance cfg x q t)))
          = fun x : Memory => x := rfl
      rw [h3, List.map_id']
    rw [h2] at h1
    exact h1
  have hsortnd : (((sort_scored_desc (l.map (fun x => (x, score_relevance cfg x q t)))).map
      (fun p => p.1)).map (fun m : Memory => m.memory_id)).Nodup :=
    ((hperm.map (fun m : Memory => m.memory_id)).nodup_iff).mpr h
  have hsub : ((((sort_scored_desc (l.map (fun x => (x, score_relevance cfg x q t)))).take
      cfg.max_results).filter (fun p => decide (0 < p.2))).Sublist
        (sort_scored_desc (l.map (fun x => (x, score_relevance cfg x q t))))) :=
    (List.filter_sublist _).trans (List.take_sublist _ _)
  exact ((hsub.map (fun p => p.1)).map (fun m : Memory => m.memory_id)).nodup hsortnd

/-- The ids of a retrieval result are duplicate-free when the table ids are. -/
lemma retrieve_ids_nodup {cfg : RetrieverConfig} {st : StorageState} {q : String}
    {t : Nat} {ft : Option (List String)} {mc : ℚ}
    (h : (st.rows.map (·.memory_id)).Nodup) :
    (((retrieve cfg st q t ft mc).1).map (·.memory_id)).Nodup := by
  have hga := get_all_ids_nodup h true
  unfold retrieve
  cases ft with
  | none =>
      by_cases hemp : ((st.get_all true).filter
          (fun m => decide (mc ≤ m.confidence))).isEmpty = true
      · rw [if_pos hemp]; simp
      · rw [if_neg hemp]
        refine top_ids_nodup cfg q t _ ?_
        exact (((List.filter_sublist _)).map (fun m : Memory => m.memory_id)).nodup hga
  | some ts =>
      by_cases hemp : (((st.get_all true).filter (fun m => ts.contains m.type)).filter
          (fun m => decide (mc ≤ m.confidence))).isEmpty = true
      · rw [if_pos hemp]; simp
      · rw [if_neg hemp]
        refine top_ids_nodup cfg q t _ ?_
        exact (((List.filter_sublist _).trans (List.filter_sublist _)).map
          (fun m : Memory => m.memory_id)).nodup hga

/-- The state returned by retrieve is the fold of mark_accessed over the result. -/
lemma retrieve_snd_eq_fold (cfg : RetrieverConfig) (st : StorageState) (q : String)
    (t : Nat) (ft : Option (List String)) (mc : ℚ) :
    (retrieve cfg st q t ft mc).2
      = ((retrieve cfg st q t ft mc).1).foldl
          (fun s m => (s.mark_accessed m.memory_id t).1) st := by
  unfold retrieve
  cases ft with
  | none =>
      by_cases hemp : ((st.get_all true).filter
          (fun m => decide (mc ≤ m.confidence))).isEmpty = true
      · rw [if_pos hemp]; rfl
      · rw [if_neg hemp]
  | some ts =>
      by_cases hemp : (((st.get_all true).filter (fun m => ts.contains m.type)).filter
          (fun m => decide (mc ≤ m.confidence))).isEmpty = true
      · rw [if_pos hemp]; rfl
      · rw [if_neg hemp]

/-- C4: under a duplicate-free id column, every memory in a retrieval result is
backed by a stored row; the rows whose id occurs in the result are updated
exactly once — access count incremented by exactly one and last accessed turn
set to the current turn — while every other row and the embedding side-table
are unchanged. -/
theorem retrieve_marks_each_result_once (cfg : RetrieverConfig) (st : StorageState)
    (q : String) (t : Nat) (ft : Option (List String)) (mc : ℚ)
    (h : (st.rows.map (·.memory_id)).Nodup) :
    (∀ m ∈ (retrieve cfg st q t ft mc).1, m.memory_id ∈ st.rows.map (·.memory_id))
    ∧ ((retrieve cfg st q t ft mc).2).rows
        = st.rows.map (fun r =>
            if r.memory_id ∈ ((retrieve cfg st q t ft mc).1).map (·.memory_id)
            then { r with last_accessed_turn := some t, access_count := r.access_count + 1 }
            else r)
    ∧ ((retrieve cfg st q t ft mc).2).embeddings = st.embeddings := by
  have hids := @retrieve_ids_nodup cfg st q t ft mc h
  have hfold := mark_fold_rows t (((retrieve cfg st q t ft mc).1).map (·.memory_id)) st hids
  have hfold_eq : (((retrieve cfg st q t ft mc).1).map (·.memory_id)).foldl
        (fun s i => (s.mark_accessed i t).1) st
      = ((retrieve cfg st q t ft mc).1).foldl
          (fun s m => (s.mark_accessed m.memory_id t).1) st := by
    rw [List.foldl_map]
  refine ⟨?_, ?_, ?_⟩
  · intro m hm
    rcases StorageState.mem_get_all_row (retrieve_subset hm) with ⟨r, hr, _, hid⟩
    exact List.mem_map.mpr ⟨r, hr, hid⟩
  · rw [retrieve_snd_eq_fold, ← hfold_eq, hfold.1]
  · rw [retrieve_snd_eq_fold, ← hfold_eq, hfold.2]

/-- C4 witness: the characterization instantiated on the one-row store holding
memWithEmbedding. -/
theorem retrieve_marks_each_result_once_witness :
    (∀ m ∈ (retrieve { embedding_model := none, max_results := 5 } stWithEmbedding
        "q" 9 none (1/2)).1,
      m.memory_id ∈ stWithEmbedding.rows.map (·.memory_id))
    ∧ ((retrieve { embedding_model := none, max_results := 5 } stWithEmbedding
        "q" 9 none (1/2)).2).rows
        = stWithEmbedding.rows.map (fun r =>
            if r.memory_id ∈ ((retrieve { embedding_model := none, max_results := 5 }
                stWithEmbedding "q" 9 none (1/2)).1).map (·.memory_id)
            then { r with last_accessed_turn := some 9, access_count := r.access_count + 1 }
            else r)
    ∧ ((retrieve { embedding_model := none, max_results := 5 } stWithEmbedding
        "q" 9 none (1/2)).2).embeddings = stWithEmbedding.embeddings :=
  retrieve_marks_each_result_once { embedding_model := none, max_results := 5 }
    stWithEmbedding "q" 9 none (1/2) (by decide)

/-! ## Claim C8 -/

/-- After deactivating an id, get on that id misses. -/
lemma deactivate_get_none (st : StorageState) (i : String) :
    (st.deactivate i).1.get i = none := by
  unfold StorageState.get
  have hfind : ((st.deactivate i).1.rows).find?
      (fun r => r.memory_id = i && r.active) = none := by
    rw [List.find?_eq_none]
    intro r' hr'
    have hrows : (st.deactivate i).1.rows
        = st.rows.map (fun r => if r.memory_id = i then { r with active := false } else r) := rfl
    rw [hrows] at hr'
    rcases List.mem_map.mp hr' with ⟨r, _, hfr⟩
    by_cases hid : r.memory_id = i
    · subst hfr; simp [hid]
    · subst hfr; simp [hid]
  rw [hfind]

/-- C8: after deactivate, the memory vanishes from get_all(active_only=true) and
from every retrieve result, get reports not found, and the row itself is still
present in the durable table. -/
theorem deactivate_soft_delete (st : StorageState) (i : String)
    (hsaved : ∃ r ∈ st.rows, r.memory_id = i) :
    (∀ m ∈ (st.deactivate i).1.get_all true, m.memory_id ≠ i)
    ∧ (st.deactivate i).1.get i = none
    ∧ (∀ (cfg : RetrieverConfig) (q : String) (t : Nat) (ft : Option (List String)) (mc : ℚ),
        ∀ m ∈ (retrieve cfg (st.deactivate i).1 q t ft mc).1, m.memory_id ≠ i)
    ∧ (∃ r ∈ (st.deactivate i).1.rows, r.memory_id = i) := by
  have hgetnone := deactivate_get_none st i
  have hget_all : ∀ m ∈ (st.deactivate i).1.get_all true, m.memory_id ≠ i := by
    intro m hm hmi
    have := StorageState.mem_get_all hm
    rw [hmi, hgetnone] at this
    exact absurd this (by simp)
  refine ⟨hget_all, hgetnone, ?_, ?_⟩
  · intro cfg q t ft mc m hm
    exact hget_all m (retrieve_subset hm)
  · rcases hsaved with ⟨r, hr, hri⟩
    refine ⟨if r.memory_id = i then { r with active := false } else r, ?_, ?_⟩
    · have hrows : (st.deactivate i).1.rows
          = st.rows.map (fun r => if r.memory_id = i then { r with active := false } else r) :=
        rfl
      rw [hrows]
      exact List.mem_map.mpr ⟨r, hr, rfl⟩
    · by_cases hid : r.memory_id = i
      · simp [hid]
      · simp [hid, hri]

/-- C8 witness: save one memory, deactivate it, observe all four conclusions. -/
theorem deactivate_soft_delete_witness :
    (∀ m ∈ ((StorageState.empty.save memSample).1.deactivate "a").1.get_all true,
        m.memory_id ≠ "a")
    ∧ ((StorageState.empty.save memSample).1.deactivate "a").1.get "a" = none
    ∧ (∀ (cfg : RetrieverConfig) (q : String) (t : Nat) (ft : Option (List String)) (mc : ℚ),
        ∀ m ∈ (retrieve cfg ((StorageState.empty.save memSample).1.deactivate "a").1
            q t ft mc).1, m.memory_id ≠ "a")
    ∧ (∃ r ∈ ((StorageState.empty.save memSample).1.deactivate "a").1.rows,
        r.memory_id = "a") :=
  deactivate_soft_delete (StorageState.empty.save memSample).1 "a"
    ⟨memSample.toRow, by simp [StorageState.save, StorageState.empty], by simp [Memory.toRow, memSample]⟩


/-! ## Claim C3 -/

/-- The per-row turn invariant at session turn C: the row was created no later
than C and, if it has been accessed, not before its own source turn. -/
def RowTurnOk (C : Nat) (r : Row) : Prop :=
  r.source_turn ≤ C ∧ ∀ t, r.last_accessed_turn = some t → r.source_turn ≤ t

/-- Raising the turn bound preserves the row invariant. -/
lemma rowTurnOk_mono {C C2 : Nat} (h : C ≤ C2) {r : Row} (hr : RowTurnOk C r) :
    RowTurnOk C2 r :=
  ⟨hr.1.trans h, hr.2⟩

/-- mark_accessed with a turn at or past the bound preserves the row invariant. -/
lemma mark_pres {C T : Nat} (hCT : C ≤ T) {st : StorageState} (i : String)
    (h : ∀ r ∈ st.rows, RowTurnOk C r) :
    ∀ r ∈ (st.mark_accessed i T).1.rows, RowTurnOk C r := by
  intro r hr
  rw [mark_accessed_rows] at hr
  rcases List.mem_map.mp hr with ⟨r0, hr0, hfr⟩
  by_cases hid : r0.memory_id = i
  · rw [if_pos hid] at hfr
    subst hfr
    refine ⟨(h r0 hr0).1, fun t ht => ?_⟩
    have ht2 : T = t := by simpa using ht
    subst ht2
    exact (h r0 hr0).1.trans hCT
  · rw [if_neg hid] at hfr
    subst hfr
    exact h r0 hr0

/-- Folding access marks over a memory list preserves the row invariant. -/
lemma fold_mark_pres {C T : Nat} (hCT : C ≤ T) :
    ∀ (ms : List Memory) (st : StorageState),
    (∀ r ∈ st.rows, RowTurnOk C r) →
    ∀ r ∈ (ms.foldl (fun s m => (s.mark_accessed m.memory_id T).1) st).rows, RowTurnOk C r := by
  intro ms
  induction ms with
  | nil => intro st h r hr; exact h r hr
  | cons m ms ih =>
      intro st h
      exact ih (st.mark_accessed m.memory_id T).1 (mark_pres hCT m.memory_id h)

/-- The retrieval side effect preserves the row invariant when the current turn
is at or past the bound. -/
lemma retrieve_pres {C T : Nat} (hCT : C ≤ T) (cfg : RetrieverConfig) (st : StorageState)
    (q : String) (ft : Option (List String)) (mc : ℚ)
    (h : ∀ r ∈ st.rows, RowTurnOk C r) :
    ∀ r ∈ ((retrieve cfg st q T ft mc).2).rows, RowTurnOk C r := by
  rw [retrieve_snd_eq_fold]
  exact fold_mark_pres hCT _ st h

/-- Saving a memory created no later than the bound and never yet accessed
preserves the row invariant. -/
lemma save_pres {C : Nat} {st : StorageState} {m : Memory}
    (h : ∀ r ∈ st.rows, RowTurnOk C r) (hsrc : m.source_turn ≤ C)
    (hlast : m.last_accessed_turn = none) :
    ∀ r ∈ (st.save m).1.rows, RowTurnOk C r := by
  intro r hr
  have hrows : (st.save m).1.rows
      = st.rows.filter (fun r => r.memory_id ≠ m.memory_id) ++ [m.toRow] := rfl
  rw [hrows, List.mem_append] at hr
  rcases hr with hr | hr
  · exact h r (List.mem_of_mem_filter hr)
  · simp only [List.mem_singleton] at hr
    subst hr
    refine ⟨hsrc, fun t ht => ?_⟩
    have : m.last_accessed_turn = some t := ht
    rw [hlast] at this
    exact absurd this (by simp)

/-- Folding save over conforming memories preserves the row invariant. -/
lemma fold_save_pres {C : Nat} :
    ∀ (ms : List Memory) (st : StorageState),
    (∀ r ∈ st.rows, RowTurnOk C r) →
    (∀ m ∈ ms, m.source_turn ≤ C ∧ m.last_accessed_turn = none) →
    ∀ r ∈ (ms.foldl (fun s m => (s.save m).1) st).rows, RowTurnOk C r := by
  intro ms
  induction ms with
  | nil => intro st h _ r hr; exact h r hr
  | cons m ms ih =>
      intro st h hms
      have hm := hms m (by simp)
      exact ih (st.save m).1 (save_pres h hm.1 hm.2)
        (fun m2 hm2 => hms m2 (List.mem_cons_of_mem m hm2))

/-- The state of save_batch is the plain fold of save (the success counter does
not influence it). -/
lemma save_batch_fst :
    ∀ (ms : List Memory) (st : StorageState) (n : Nat),
    (ms.foldl (fun acc m => ((acc.1.save m).1, if (acc.1.save m).2 then acc.2 + 1 else acc.2))
        (st, n)).1
      = ms.foldl (fun s m => (s.save m).1) st := by
  intro ms
  induction ms with
  | nil => intro st n; rfl
  | cons m ms ih => intro st n; exact ih (st.save m).1 _

/-- Orchestrator shape of one processed turn: the turn counter advances by one
and the storage is the post-retrieval store, batch-extended by the pattern
extraction when extraction is on. -/
lemma process_turn_state (sys : MemorySystem) (findall : Findall) (now u : String)
    (a : Option String) (se : Bool) :
    ((sys.process_turn findall now u a se).1).turn_count = sys.turn_count + 1
    ∧ ((sys.process_turn findall now u a se).1).storage
        = (if se && sys.auto_extract
          then ((retrieve sys.retrCfg sys.storage u (sys.turn_count + 1) none (5/10)).2.save_batch
              (extract_with_patterns findall u (a.getD "") (sys.turn_count + 1) now)).1
          else (retrieve sys.retrCfg sys.storage u (sys.turn_count + 1) none (5/10)).2) := by
  cases hse : se && sys.auto_extract with
  | false =>
      rw [if_neg (by simp [hse])]
      unfold MemorySystem.process_turn
      simp only [MemorySystem.retrieve_memories]
      rw [hse]
      exact ⟨rfl, rfl⟩
  | true =>
      rw [if_pos (by simp [hse])]
      unfold MemorySystem.process_turn
      simp only [MemorySystem.retrieve_memories]
      rw [hse]
      exact ⟨rfl, rfl⟩

/-- One normal-session step preserves the store turn invariant. -/
lemma normal_step_pres {b c : MemorySystem} (hstep : NormalStep b c)
    (hb : ∀ r ∈ b.storage.rows, RowTurnOk b.turn_count r) :
    ∀ r ∈ c.storage.rows, RowTurnOk c.turn_count r := by
  cases hstep with
  | retrieveM q types mc =>
      intro r hr
      have hr2 : r ∈ ((retrieve b.retrCfg b.storage q b.turn_count types mc).2).rows := hr
      exact retrieve_pres (le_refl b.turn_count) b.retrCfg b.storage q types mc hb r hr2
  | process findall now u a se =>
      obtain ⟨hcount, hstor⟩ := process_turn_state b findall now u a se
      intro r hr
      rw [hcount]
      rw [hstor] at hr
      have hb2 : ∀ r ∈ b.storage.rows, RowTurnOk (b.turn_count + 1) r :=
        fun r hr => rowTurnOk_mono (Nat.le_succ _) (hb r hr)
      have hret := retrieve_pres (le_refl (b.turn_count + 1)) b.retrCfg b.storage
        u none (5/10) hb2
      by_cases hse : (se && b.auto_extract) = true
      · rw [if_pos hse] at hr
        have hms : ∀ mm ∈ extract_with_patterns findall u (a.getD "") (b.turn_count + 1) now,
            mm.source_turn ≤ b.turn_count + 1 ∧ mm.last_accessed_turn = none := by
          intro mm hmm
          have := extract_patterns_fields findall u (a.getD "") (b.turn_count + 1) now mm hmm
          exact ⟨this.1.le, this.2.1⟩
        have hbatch : ((retrieve b.retrCfg b.storage u (b.turn_count + 1) none
              (5/10)).2.save_batch
            (extract_with_patterns findall u (a.getD "") (b.turn_count + 1) now)).1
            = (extract_with_patterns findall u (a.getD "") (b.turn_count + 1) now).foldl
                (fun s m => (s.save m).1)
                (retrieve b.retrCfg b.storage u (b.turn_count + 1) none (5/10)).2 :=
          save_batch_fst _ _ 0
        rw [hbatch] at hr
        exact fold_save_pres _ _ hret hms r hr
      · rw [if_neg hse] at hr
        exact hret r hr

/-- C3 (amended): in every session that starts on a fresh empty store and uses
only processed turns and retrievals (mark_accessed only as applied by
retrieval, no reset), every stored record with a last accessed turn satisfies
last_accessed_turn at or above its source turn. -/
theorem turn_invariant_normal_sessions (llm : Option Unit)
    (emb : Option (String → List ℚ)) (k : Nat) (auto : Bool) (sys : MemorySystem)
    (h : NormalReaches (MemorySystem.fresh llm emb k auto) sys) :
    ∀ r ∈ sys.storage.rows, ∀ t, r.last_accessed_turn = some t → r.source_turn ≤ t := by
  have hinv : ∀ r ∈ sys.storage.rows, RowTurnOk sys.turn_count r := by
    induction h with
    | refl => intro r hr; exact absurd hr (by simp [MemorySystem.fresh, StorageState.empty])
    | tail hab hstep ih => exact normal_step_pres hstep ih
  exact fun r hr t ht => (hinv r hr).2 t ht

/-- A row written by an earlier session: source turn 5, never accessed. -/
def rowOld : Row :=
  { memory_id := "m1"
    type := "fact"
    key := "k"
    value := "v"
    source_turn := 5
    confidence := 8/10
    created_at := "t0"
    last_accessed_turn := none
    access_count := 0
    metadata := none
    active := true }

/-- The store holding only rowOld. -/
def stOld : StorageState := ⟨[rowOld], []⟩

/-- The memory that get reconstructs from rowOld. -/
def memOld : Memory :=
  { memory_id := "m1"
    type := "fact"
    key := "k"
    value := "v"
    source_turn := 5
    confidence := 8/10
    created_at := "t0"
    last_accessed_turn := none
    access_count := 0
    embedding := none
    metadata := none }

/-- A retriever with no embedding collaborator and the default top K of 5. -/
def cfgPlain : RetrieverConfig := ⟨none, 5⟩

/-- A session opened over the pre-existing store stOld, currently at turn 7. -/
def sysOldDb : MemorySystem :=
  { storage := stOld
    llm_client := none
    embedding_model := none
    top_k := 5
    auto_extract := true
    turn_count := 7
    history := [] }

/-- On a store whose active reads produce exactly one memory of positive
confidence passing the threshold, a retrieval without type filter returns that
memory (the confidence factor keeps its score positive) and marks it with the
current turn. -/
lemma retrieve_single_active (cfg : RetrieverConfig) (st : StorageState) (m : Memory)
    (q : String) (T : Nat) (mc : ℚ)
    (hget : st.get_all true = [m])
    (hconf : mc ≤ m.confidence) (hcpos : 0 < m.confidence)
    (hsem : m.embedding = none ∨ cfg.embedding_model = none)
    (hk : 1 ≤ cfg.max_results) :
    retrieve cfg st q T none mc = ([m], (st.mark_accessed m.memory_id T).1) := by
  have hpos : (0:ℝ) < score_relevance cfg m q T := by
    rw [score_relevance_no_semantic cfg m q T hsem]
    have hm1 : 0 ≤ (keyword_match q m : ℝ) * (0.3 / 0.7) :=
      mul_nonneg (by exact_mod_cast keyword_match_nonneg q m) (by norm_num)
    have hm2 : 0 ≤ recency_score m T * (0.15 / 0.7) :=
      mul_nonneg (recency_score_nonneg m T) (by norm_num)
    have hm3 : 0 ≤ frequency_score m * (0.1 / 0.7) :=
      mul_nonneg (frequency_score_nonneg m) (by norm_num)
    have hm4 : (0:ℝ) < (m.confidence : ℝ) * (0.15 / 0.7) := by
      have hc : (0:ℝ) < (m.confidence : ℝ) := by exact_mod_cast hcpos
      exact mul_pos hc (by norm_num)
    linarith
  have hdec : decide ((0:ℝ) < score_relevance cfg m q T) = true := decide_eq_true hpos
  have hconfdec : decide (mc ≤ m.confidence) = true := decide_eq_true hconf
  unfold retrieve
  rw [hget]
  simp only [List.filter_cons, List.filter_nil, hconfdec, if_true]
  rw [if_neg (by simp)]
  simp only [List.map_cons, List.map_nil]
  have hsort : sort_scored_desc [(m, score_relevance cfg m q T)]
      = [(m, score_relevance cfg m q T)] := rfl
  rw [hsort]
  obtain ⟨k, hkk⟩ : ∃ k, cfg.max_results = k + 1 :=
    ⟨cfg.max_results - 1, (Nat.succ_pred_eq_of_pos hk).symm⟩
  rw [hkk]
  simp only [List.take_succ_cons, List.take_nil, List.filter_cons, List.filter_nil,
    hdec, if_true, List.map_cons, List.map_nil]
  rfl

/-- On the one-memory store, a retrieval at any current turn returns the memory
and marks it with that turn. -/
lemma retrieve_stOld (T : Nat) :
    retrieve cfgPlain stOld "zzz" T none (5/10)
      = ([memOld], (stOld.mark_accessed "m1" T).1) := by
  have h := retrieve_single_active cfgPlain stOld memOld "zzz" T (5/10) rfl
    (by norm_num [memOld]) (by norm_num [memOld]) (Or.inr rfl) (by norm_num [cfgPlain])
  exact h

/-- C3 counterexample: the claim fails on the listed pipeline operations. A
session over a store holding the turn-5 record is reset (turn counter back to
0, database kept) and then retrieves; the record comes back and is marked with
turn 0, so its last accessed turn 0 is strictly below its source turn 5. -/
theorem reset_breaks_turn_invariant :
    PipelineReaches sysOldDb ((sysOldDb.reset.retrieve_memories "zzz" none (5/10)).2)
    ∧ ∃ r ∈ ((sysOldDb.reset.retrieve_memories "zzz" none (5/10)).2).storage.rows,
        ∃ t, r.last_accessed_turn = some t ∧ t < r.source_turn := by
  constructor
  · exact PipelineReaches.tail
      (PipelineReaches.tail (PipelineReaches.refl _) (PipelineStep.reset _))
      (PipelineStep.retrieveM _ "zzz" none (5/10))
  · have hst : ((sysOldDb.reset.retrieve_memories "zzz" none (5/10)).2).storage
        = (stOld.mark_accessed "m1" 0).1 := by
      have hdef : ((sysOldDb.reset.retrieve_memories "zzz" none (5/10)).2).storage
          = (retrieve cfgPlain stOld "zzz" 0 none (5/10)).2 := rfl
      rw [hdef, retrieve_stOld 0]
    rw [hst]
    refine ⟨{ rowOld with last_accessed_turn := some 0, access_count := 1 }, ?_, 0, rfl, ?_⟩
    · rw [mark_accessed_rows]
      have hid : rowOld.memory_id = "m1" := rfl
      simp [stOld, hid, rowOld]
    · show 0 < rowOld.source_turn
      norm_num [rowOld]

/-- Projections of a processed turn that the if on extraction does not affect. -/
lemma process_turn_fields (sys : MemorySystem) (findall : Findall) (now u : String)
    (a : Option String) (se : Bool) :
    ((sys.process_turn findall now u a se).1).embedding_model = sys.embedding_model
    ∧ ((sys.process_turn findall now u a se).1).top_k = sys.top_k := by
  cases hse : se && sys.auto_extract with
  | false =>
      unfold MemorySystem.process_turn
      simp only [MemorySystem.retrieve_memories]
      rw [hse]
      exact ⟨rfl, rfl⟩
  | true =>
      unfold MemorySystem.process_turn
      simp only [MemorySystem.retrieve_memories]
      rw [hse]
      exact ⟨rfl, rfl⟩

/-- The empty store retrieves nothing and is left unchanged. -/
lemma retrieve_empty (cfg : RetrieverConfig) (q : String) (T : Nat)
    (ft : Option (List String)) (mc : ℚ) :
    retrieve cfg StorageState.empty q T ft mc = ([], StorageState.empty) := by
  unfold retrieve
  cases ft <;> simp [StorageState.get_all, StorageState.empty]

/-- The fresh system of the C3 witness run. -/
def sysFreshW : MemorySystem := MemorySystem.fresh none none 5 true

/-- The system after one processed turn that extracts the allergy fact. -/
noncomputable def sysW1 : MemorySystem :=
  (sysFreshW.process_turn findallW "T0" msgW none true).1

/-- The system after a follow-up retrieval at turn 1. -/
noncomputable def sysW2 : MemorySystem := (sysW1.retrieve_memories "zzz" none (5/10)).2

/-- The store written by the witness turn. -/
def stW1 : StorageState := ⟨[(mkFactMemory "peanuts" 1 "T0").toRow], []⟩

/-- The witness row after the retrieval marked it at turn 1. -/
def rowWMarked : Row :=
  { (mkFactMemory "peanuts" 1 "T0").toRow with
      last_accessed_turn := some 1, access_count := 1 }

/-- The storage reached after the witness turn is the one-row store. -/
lemma sysW1_storage : sysW1.storage = stW1 := by
  obtain ⟨hcount, hstor⟩ := process_turn_state sysFreshW findallW "T0" msgW none true
  have hdef : sysW1.storage
      = ((sysFreshW.process_turn findallW "T0" msgW none true).1).storage := rfl
  rw [hdef, hstor, if_pos (show (true && sysFreshW.auto_extract) = true from rfl)]
  have hempty : sysFreshW.storage = StorageState.empty := rfl
  have hturn : sysFreshW.turn_count + 1 = 1 := rfl
  rw [hempty, hturn, retrieve_empty]
  rfl

/-- The retrieval of the witness run returns the extracted memory and marks its
row at turn 1. -/
lemma sysW2_rows : sysW2.storage.rows = [rowWMarked] := by
  obtain ⟨hcount, _⟩ := process_turn_state sysFreshW findallW "T0" msgW none true
  obtain ⟨hemb, htop⟩ := process_turn_fields sysFreshW findallW "T0" msgW none true
  have hdef : sysW2.storage
      = (retrieve sysW1.retrCfg sysW1.storage "zzz" sysW1.turn_count none (5/10)).2 := rfl
  have hcfg : sysW1.retrCfg = cfgPlain := by
    unfold MemorySystem.retrCfg
    rw [show sysW1.embedding_model = sysFreshW.embedding_model from hemb,
      show sysW1.top_k = sysFreshW.top_k from htop]
    rfl
  have hturn : sysW1.turn_count = 1 := hcount
  rw [hdef, hcfg, hturn, sysW1_storage,
    retrieve_single_active cfgPlain stW1 (mkFactMemory "peanuts" 1 "T0") "zzz" 1 (5/10)
      rfl (by norm_num [mkFactMemory]) (by norm_num [mkFactMemory]) (Or.inl rfl)
      (by norm_num [cfgPlain])]
  rw [mark_accessed_rows]
  have hid : (mkFactMemory "peanuts" 1 "T0").toRow.memory_id
      = (mkFactMemory "peanuts" 1 "T0").memory_id := rfl
  have hacc : (mkFactMemory "peanuts" 1 "T0").toRow.access_count = 0 := rfl
  simp [stW1, rowWMarked, hid, hacc]

/-- C3 witness: in the two-step normal run (one extracting turn, then one
retrieval) the marked row satisfies the invariant at its concrete values. -/
theorem turn_invariant_normal_sessions_witness : rowWMarked.source_turn ≤ 1 :=
  turn_invariant_normal_sessions none none 5 true sysW2
    (NormalReaches.tail
      (NormalReaches.tail (NormalReaches.refl _)
        (NormalStep.process sysFreshW findallW "T0" msgW none true))
      (NormalStep.retrieveM sysW1 "zzz" none (5/10)))
    rowWMarked (by rw [sysW2_rows]; exact List.mem_singleton.mpr rfl) 1 rfl
